import Mathlib

/-!
# Verification of the transdom shipping-logistics backend core

Shallow embedding of the order/pricing/sequencing core of the transdom
repository (`src/routes.py`, `src/utils.py`, `src/config.py`).  Numeric
values are modelled as exact rationals (the spec fixes that internal
computation stays in exact numeric form); Mongo documents touched by the
order endpoints are modelled as association lists of field names to values,
so that presence or absence of a field is observable exactly as it is for
the storage layer.
-/

namespace Transdom

/-! ## Insurance calculator (`src/utils.py`, `calculate_insurance_fee`) -/

/-- `calculate_insurance_fee` from `src/utils.py`.  The Python guard
`if not shipment_value or shipment_value <= 0` collapses to `v ≤ 0` on exact
numbers (`not 0.0` is the only extra truthy case and is subsumed). -/
def calculate_insurance_fee (shipment_value : ℚ) : ℚ :=
  if shipment_value ≤ 0 then 5000
  else if shipment_value ≤ 100000 then 5000
  else if shipment_value ≤ 200000 then 7500
  else if shipment_value ≤ 500000 then 10000
  else if shipment_value ≤ 1000000 then 20000
  else if shipment_value ≤ 2000000 then 30000
  else if shipment_value ≤ 5000000 then 120000
  else if shipment_value ≤ 10000000 then 240000
  else 240000

/-! ## Insurance configuration (`src/config.py`) and the percentage policy -/

/-- `INSURANCE_RATE` from `src/config.py` (default of the env lookup). -/
def INSURANCE_RATE : ℚ := 0.02

/-- `MINIMUM_INSURANCE_FEE` from `src/config.py` (default of the env lookup). -/
def MINIMUM_INSURANCE_FEE : ℚ := 500

/-- Modelled from the spec: the percentage-with-floor insurance policy
`fee = max(v * rate, minimumFee)`, with `v ≤ 0` returning `minimumFee`
directly.  The function itself is absent from `src/` — only its
configuration (`INSURANCE_RATE`, `MINIMUM_INSURANCE_FEE` in `src/config.py`)
and their import in `src/utils.py` exist — so it is modelled faithfully from
the spec words in section 4.3. -/
def percentage_insurance_fee (rate minimumFee v : ℚ) : ℚ :=
  if v ≤ 0 then minimumFee else max (v * rate) minimumFee

/-- C3: the bracket insurance fee is a pure function of the declared value
with inclusive upper bounds: 5000 for `v ≤ 0` and for `0 < v ≤ 100000`,
7500 up to 200000, 10000 up to 500000, 20000 up to 1000000, 30000 up to
2000000, 120000 up to 5000000, and 240000 (capped) for every `v > 5000000`;
in particular `fee 0 = 5000`, `fee 100000 = 5000`, `fee 100001 = 7500`,
`fee 10000000 = 240000`, `fee 10000001 = 240000`. -/
theorem insurance_fee_brackets :
    (∀ v : ℚ, v ≤ 0 → calculate_insurance_fee v = 5000) ∧
    (∀ v : ℚ, 0 < v → v ≤ 100000 → calculate_insurance_fee v = 5000) ∧
    (∀ v : ℚ, 100000 < v → v ≤ 200000 → calculate_insurance_fee v = 7500) ∧
    (∀ v : ℚ, 200000 < v → v ≤ 500000 → calculate_insurance_fee v = 10000) ∧
    (∀ v : ℚ, 500000 < v → v ≤ 1000000 → calculate_insurance_fee v = 20000) ∧
    (∀ v : ℚ, 1000000 < v → v ≤ 2000000 → calculate_insurance_fee v = 30000) ∧
    (∀ v : ℚ, 2000000 < v → v ≤ 5000000 → calculate_insurance_fee v = 120000) ∧
    (∀ v : ℚ, 5000000 < v → calculate_insurance_fee v = 240000) ∧
    calculate_insurance_fee 0 = 5000 ∧
    calculate_insurance_fee 100000 = 5000 ∧
    calculate_insurance_fee 100001 = 7500 ∧
    calculate_insurance_fee 10000000 = 240000 ∧
    calculate_insurance_fee 10000001 = 240000 := by
  refine ⟨?_, ?_, ?_, ?_, ?_, ?_, ?_, ?_, ?_, ?_, ?_, ?_, ?_⟩
  case refine_1 =>
    intro v h₁
    simp only [calculate_insurance_fee]
    split_ifs <;> first | rfl | linarith
  case refine_8 =>
    intro v h₁
    simp only [calculate_insurance_fee]
    split_ifs <;> first | rfl | linarith
  case refine_9 => norm_num [calculate_insurance_fee]
  case refine_10 => norm_num [calculate_insurance_fee]
  case refine_11 => norm_num [calculate_insurance_fee]
  case refine_12 => norm_num [calculate_insurance_fee]
  case refine_13 => norm_num [calculate_insurance_fee]
  all_goals
    intro v h₁ h₂
    simp only [calculate_insurance_fee]
    split_ifs <;> first | rfl | linarith

/-- Closed witness for `insurance_fee_brackets`: the bracket statements hold
at concrete declared values in each bracket. -/
theorem insurance_fee_brackets_holds :
    calculate_insurance_fee (-7) = 5000 ∧ calculate_insurance_fee 150000 = 7500 ∧
    calculate_insurance_fee 6000000 = 240000 :=
  ⟨insurance_fee_brackets.1 (-7) (by norm_num),
   insurance_fee_brackets.2.2.1 150000 (by norm_num) (by norm_num),
   insurance_fee_brackets.2.2.2.2.2.2.2.1 6000000 (by norm_num)⟩

set_option maxHeartbeats 2000000 in
/-- C10: the bracket insurance fee is total on ℚ, monotonically
non-decreasing in the declared value, and always lies between 5000 and
240000 inclusive. -/
theorem insurance_fee_monotone_and_bounded :
    (∀ v1 v2 : ℚ, v1 ≤ v2 → calculate_insurance_fee v1 ≤ calculate_insurance_fee v2) ∧
    (∀ v : ℚ, 5000 ≤ calculate_insurance_fee v ∧ calculate_insurance_fee v ≤ 240000) := by
  constructor
  · intro v1 v2 h
    simp only [calculate_insurance_fee]
    split_ifs <;> first | linarith | norm_num
  · intro v
    simp only [calculate_insurance_fee]
    split_ifs <;> norm_num

/-- Closed witness for `insurance_fee_monotone_and_bounded` at a concrete
pair of declared values. -/
theorem insurance_fee_monotone_holds :
    calculate_insurance_fee 99 ≤ calculate_insurance_fee 300000 :=
  insurance_fee_monotone_and_bounded.1 99 300000 (by norm_num)

/-- C8: the percentage-with-floor insurance policy computes
`fee v = max (v * rate) minimumFee` from the configuration values
(defaults 0.02 and 500), returning `minimumFee` directly for `v ≤ 0`;
with the defaults, `fee 10000 = 500` and `fee 100000 = 2000`. -/
theorem percentage_fee_spec :
    (∀ v : ℚ, 0 < v →
      percentage_insurance_fee INSURANCE_RATE MINIMUM_INSURANCE_FEE v =
        max (v * INSURANCE_RATE) MINIMUM_INSURANCE_FEE) ∧
    (∀ v : ℚ, v ≤ 0 →
      percentage_insurance_fee INSURANCE_RATE MINIMUM_INSURANCE_FEE v =
        MINIMUM_INSURANCE_FEE) ∧
    INSURANCE_RATE = 0.02 ∧ MINIMUM_INSURANCE_FEE = 500 ∧
    percentage_insurance_fee INSURANCE_RATE MINIMUM_INSURANCE_FEE 10000 = 500 ∧
    percentage_insurance_fee INSURANCE_RATE MINIMUM_INSURANCE_FEE 100000 = 2000 := by
  refine ⟨?_, ?_, rfl, rfl, ?_, ?_⟩
  · intro v hv
    simp only [percentage_insurance_fee, if_neg (not_le.mpr hv)]
  · intro v hv
    simp only [percentage_insurance_fee, if_pos hv]
  · simp only [percentage_insurance_fee, INSURANCE_RATE, MINIMUM_INSURANCE_FEE]
    norm_num
  · simp only [percentage_insurance_fee, INSURANCE_RATE, MINIMUM_INSURANCE_FEE]
    norm_num

/-- Closed witness for `percentage_fee_spec` at concrete declared values on
both sides of zero. -/
theorem percentage_fee_spec_holds :
    percentage_insurance_fee INSURANCE_RATE MINIMUM_INSURANCE_FEE 25000 =
      max ((25000 : ℚ) * INSURANCE_RATE) MINIMUM_INSURANCE_FEE ∧
    percentage_insurance_fee INSURANCE_RATE MINIMUM_INSURANCE_FEE (-3) =
      MINIMUM_INSURANCE_FEE :=
  ⟨percentage_fee_spec.1 25000 (by norm_num),
   percentage_fee_spec.2.1 (-3) (by norm_num)⟩

/-! ## Order sequencer (`src/routes.py`, `make_order`, lines 513-525) -/

/-- One sequencer call: the atomic
`counters.find_one_and_update(filter id order_count, inc seq by 1, upsert,
return_document=AFTER)` inside `make_order`.  The state is the stored `seq`
(`0` standing for a missing counter document, which the upsert creates with
`seq = 1`); the first component is the value the call returns. -/
def order_counter_inc (seq : Nat) : Nat × Nat := (seq + 1, seq + 1)

/-- The order number `make_order` mints: `transdom_order` ++ seq ++ `_` ++ date. -/
def order_no_string (order_num : Nat) (date_str : String) : String :=
  "transdom_order" ++ toString order_num ++ "_" ++ date_str

/-- The values returned by `n` successive sequencer calls starting from
counter state `s0`.  Each call is one indivisible step at the storage layer
(`find_one_and_update` is atomic), so any interleaving of concurrent callers
executes exactly this sequence of steps in some order. -/
def order_counter_values (s0 : Nat) : Nat → List Nat
  | 0 => []
  | n + 1 => (order_counter_inc s0).1 :: order_counter_values ((order_counter_inc s0).2) n

theorem order_counter_values_gt (s0 : Nat) :
    ∀ n, ∀ v ∈ order_counter_values s0 n, s0 < v := by
  intro n
  induction n generalizing s0 with
  | zero => intro v hv; simp [order_counter_values] at hv
  | succ n ih =>
    intro v hv
    simp only [order_counter_values, order_counter_inc, List.mem_cons] at hv
    rcases hv with rfl | hv
    · omega
    · have := ih (s0 + 1) v hv
      omega

theorem order_counter_values_pairwise (s0 : Nat) :
    ∀ n, (order_counter_values s0 n).Pairwise (· < ·) := by
  intro n
  induction n generalizing s0 with
  | zero => simp [order_counter_values]
  | succ n ih =>
    simp only [order_counter_values, order_counter_inc, List.pairwise_cons]
    exact ⟨fun v hv => order_counter_values_gt (s0 + 1) n v hv, ih (s0 + 1)⟩

/-- C2: each sequencer call atomically increments the single counter
document by one and returns the incremented value; along any sequence of
calls the returned values are strictly increasing, hence pairwise distinct
(no sequence component is ever reused). -/
theorem order_counter_spec :
    (∀ s : Nat, order_counter_inc s = (s + 1, s + 1)) ∧
    (∀ s0 n : Nat,
      (order_counter_values s0 n).length = n ∧
      (order_counter_values s0 n).Pairwise (· < ·) ∧
      (order_counter_values s0 n).Nodup) := by
  refine ⟨fun s => rfl, fun s0 n => ⟨?_, order_counter_values_pairwise s0 n, ?_⟩⟩
  · induction n generalizing s0 with
    | zero => rfl
    | succ n ih => simp [order_counter_values, ih]
  · exact (order_counter_values_pairwise s0 n).imp ne_of_lt

/-! ## Mongo document model for the order endpoints

`make_order`, `approve_order`, `log_order_activity` and `get_order_logs`
manipulate raw Mongo documents, and the claims about them depend on which
field names a document carries.  A document is therefore modelled as an
association list from field names to values. -/

/-- A Mongo field value as used by the order endpoints. -/
inductive BVal
  | str : String → BVal
  | int : Int → BVal
  | rat : ℚ → BVal
  | null : BVal
deriving DecidableEq, Repr

/-- A Mongo document: ordered field list. -/
abbrev Doc := List (String × BVal)

/-- Field lookup; `none` models an absent field. -/
def dlookup (k : String) (d : Doc) : Option BVal :=
  (d.find? (fun p => p.1 == k)).map (fun p => p.2)

/-- Mongo `$set` of a single field: replace its value when present,
append the field otherwise. -/
def dset (k : String) (v : BVal) : Doc → Doc
  | [] => [(k, v)]
  | (k1, v1) :: rest => if k1 == k then (k, v) :: rest else (k1, v1) :: dset k v rest

/-- `find_one_and_update(filter, update, return_document=AFTER)` on a
collection: update the first matching document and return it post-update. -/
def findOneAndUpdate {α : Type} (p : α → Bool) (f : α → α) :
    List α → Option α × List α
  | [] => (none, [])
  | d :: rest =>
    if p d then (some (f d), f d :: rest)
    else
      let r := findOneAndUpdate p f rest
      (r.1, d :: r.2)

/-- `update_one(filter, update)`: update the first matching document. -/
def updateFirst {α : Type} (p : α → Bool) (f : α → α) : List α → List α
  | [] => []
  | a :: rest => if p a then f a :: rest else a :: updateFirst p f rest

/-- Python `str.upper()` restricted to the ASCII strings this API uses. -/
def strUpper (s : String) : String := ⟨s.data.map Char.toUpper⟩

/-- Python `str.lower()` restricted to the ASCII strings this API uses. -/
def strLower (s : String) : String := ⟨s.data.map Char.toLower⟩

/-- The error kinds the endpoints raise (`HTTPException` status classes). -/
inductive ApiError
  | badRequest : String → ApiError
  | notFound : String → ApiError
  | serverError : String → ApiError
deriving DecidableEq, Repr

deriving instance DecidableEq for Except

/-- The mutable collections the order endpoints touch. -/
structure AppState where
  orders : List Doc
  order_logs : List Doc
deriving DecidableEq, Repr

/-- The `valid_statuses` list of `approve_order`. -/
def valid_statuses : List String := ["pending", "approved", "rejected"]

/-- The Mongo filter `{"order_no": order_no}` used by the order endpoints. -/
def order_no_pred (order_no : String) (d : Doc) : Bool :=
  dlookup "order_no" d == some (.str order_no)

/-- `approve_order` endpoint (`src/routes.py` lines 836-882): validate the
status (case-insensitively, canonicalized to lowercase), then
unconditionally `$set` it on the first order matching `order_no`,
returning the updated document; 400 on a bad status (before any lookup),
404 when no order matches.  It writes nothing to `order_logs`. -/
def approve_order (st : AppState) (order_no status_str : String) :
    AppState × Except ApiError Doc :=
  if valid_statuses.contains (strLower status_str) then
    match (findOneAndUpdate (order_no_pred order_no)
        (dset "status" (.str (strLower status_str))) st.orders).1 with
    | some updated =>
      ({ st with orders := (findOneAndUpdate (order_no_pred order_no)
          (dset "status" (.str (strLower status_str))) st.orders).2 }, .ok updated)
    | none => (st, .error (.notFound ("Order " ++ order_no ++ " not found")))
  else
    (st, .error (.badRequest "Invalid status. Must be one of: pending, approved, rejected"))

/-- `log_order_activity` endpoint (`src/routes.py` lines 576-623): insert a
single activity-log document with exactly these fields. -/
def log_order_activity (st : AppState) (order_no activity_type : String)
    (description : Option String) (user_email : String) (timestamp : Int) :
    AppState × Except ApiError Unit :=
  let log_entry : Doc :=
    [("order_no", .str order_no),
     ("activity_type", .str activity_type),
     ("description", match description with | some s => .str s | none => .null),
     ("user_email", .str user_email),
     ("timestamp", .int timestamp),
     ("ip_address", .null)]
  ({ st with order_logs := st.order_logs ++ [log_entry] }, .ok ())

/-- The request payload of `make_order`, with the fields `make_order` reads
(the `MakeOrderRequest` pydantic model is referenced but not present under
`src/`; the field list is taken from its uses in `src/routes.py`). -/
structure MakeOrderRequest where
  zone_picked : String
  delivery_speed : String
  amount_paid : ℚ
  sender_name : String
  sender_phone : String
  sender_address : String
  sender_state : String
  sender_city : String
  sender_country : String
  sender_email : String
  receiver_name : String
  receiver_phone : String
  receiver_address : String
  receiver_state : String
  receiver_city : String
  receiver_post_code : String
  receiver_country : String
  shipment_description : String
  shipment_quantity : Int
  shipment_value : ℚ
  shipment_weight : ℚ
deriving DecidableEq, Repr

/-- The order document `make_order` inserts (`src/routes.py` lines 527-555):
exactly these fields — the owner is stored under `sender_email` and no
field named `email` is ever written. -/
def make_order_doc (payload : MakeOrderRequest) (order_no : String)
    (date_created : Int) : Doc :=
  [("order_no", .str order_no),
   ("zone_picked", .str (strUpper payload.zone_picked)),
   ("delivery_speed", .str payload.delivery_speed),
   ("amount_paid", .rat payload.amount_paid),
   ("status", .str "pending"),
   ("date_created", .int date_created),
   ("sender_name", .str payload.sender_name),
   ("sender_phone", .str payload.sender_phone),
   ("sender_address", .str payload.sender_address),
   ("sender_state", .str payload.sender_state),
   ("sender_city", .str payload.sender_city),
   ("sender_country", .str payload.sender_country),
   ("sender_email", .str (strLower payload.sender_email)),
   ("receiver_name", .str payload.receiver_name),
   ("receiver_phone", .str payload.receiver_phone),
   ("receiver_address", .str payload.receiver_address),
   ("receiver_state", .str payload.receiver_state),
   ("receiver_city", .str payload.receiver_city),
   ("receiver_post_code", .str payload.receiver_post_code),
   ("receiver_country", .str payload.receiver_country),
   ("shipment_description", .str payload.shipment_description),
   ("shipment_quantity", .int payload.shipment_quantity),
   ("shipment_value", .rat payload.shipment_value),
   ("shipment_weight", .rat payload.shipment_weight)]

/-- `get_order_logs` endpoint (`src/routes.py` lines 626-673): the ownership
check looks the order up by `order_no` together with a filter on a field
named `email` holding the lowercased authenticated email; only when that
finds a document are the matching log entries returned (their descending
timestamp sort is presentation only and not modelled). -/
def get_order_logs (st : AppState) (order_no user_email : String) :
    Except ApiError (List Doc) :=
  match st.orders.find? (fun d =>
      dlookup "order_no" d == some (.str order_no) &&
      dlookup "email" d == some (.str (strLower user_email))) with
  | none => .error (.notFound "Order not found or you do not have access to it")
  | some _ =>
    .ok (st.order_logs.filter (fun d => dlookup "order_no" d == some (.str order_no)))

/-! ## Document and collection lemmas -/

theorem dlookup_cons (k k1 : String) (v1 : BVal) (rest : Doc) :
    dlookup k ((k1, v1) :: rest) = if k1 == k then some v1 else dlookup k rest := by
  by_cases h : (k1 == k) <;> simp [dlookup, List.find?_cons, h]

theorem dlookup_dset_self (k : String) (v : BVal) (d : Doc) :
    dlookup k (dset k v d) = some v := by
  induction d with
  | nil => simp [dset, dlookup_cons, dlookup]
  | cons p rest ih =>
    obtain ⟨k1, v1⟩ := p
    by_cases h : (k1 == k)
    · simp [dset, h, dlookup_cons]
    · simp [dset, h, dlookup_cons, ih]

theorem dlookup_dset_ne (k k1 : String) (v : BVal) (d : Doc) (hk : k1 ≠ k) :
    dlookup k1 (dset k v d) = dlookup k1 d := by
  have hkk1 : (k == k1) = false := by simpa using Ne.symm hk
  induction d with
  | nil => simp [dset, dlookup_cons, hkk1, dlookup]
  | cons p rest ih =>
    obtain ⟨k2, v2⟩ := p
    by_cases h : (k2 == k)
    · have hk2 : k2 = k := by simpa using h
      subst hk2
      simp [dset, h, dlookup_cons, hkk1]
    · by_cases h2 : (k2 == k1) <;> simp [dset, h, h2, dlookup_cons, ih]

theorem findOneAndUpdate_fst {α : Type} (p : α → Bool) (f : α → α) (l : List α) :
    (findOneAndUpdate p f l).1 = (l.find? p).map f := by
  induction l with
  | nil => rfl
  | cons a rest ih =>
    by_cases ha : p a
    · simp [findOneAndUpdate, ha, List.find?_cons_of_pos]
    · simp [findOneAndUpdate, ha, List.find?_cons_of_neg, ih]

theorem find?_findOneAndUpdate_snd {α : Type} (p : α → Bool) (f : α → α)
    (hpf : ∀ d, p (f d) = p d) (l : List α) :
    ((findOneAndUpdate p f l).2).find? p = (l.find? p).map f := by
  induction l with
  | nil => rfl
  | cons a rest ih =>
    by_cases ha : p a
    · simp [findOneAndUpdate, ha, List.find?_cons_of_pos, hpf a]
    · simp [findOneAndUpdate, ha, List.find?_cons_of_neg, ih]

theorem mem_valid_statuses_iff (x : String) :
    valid_statuses.contains x = true ↔ x ∈ valid_statuses := by
  simp [valid_statuses]

/-- The `approve_order` match predicate is untouched by setting `status`. -/
theorem order_no_pred_dset_status (no : String) (v : BVal) (d : Doc) :
    order_no_pred no (dset "status" v d) = order_no_pred no d := by
  unfold order_no_pred
  rw [dlookup_dset_ne _ _ _ _ (by decide)]

/-- When the status is valid and some order matches, `approve_order` updates
the first match in place and returns it. -/
theorem approve_order_found (st : AppState) (no s : String) {d₀ : Doc}
    (hc : valid_statuses.contains (strLower s) = true)
    (hd₀ : st.orders.find? (order_no_pred no) = some d₀) :
    approve_order st no s =
      ({ st with orders := (findOneAndUpdate (order_no_pred no)
            (dset "status" (.str (strLower s))) st.orders).2 },
       .ok (dset "status" (.str (strLower s)) d₀)) := by
  have hfst : (findOneAndUpdate (order_no_pred no)
      (dset "status" (.str (strLower s))) st.orders).1 =
      some (dset "status" (.str (strLower s)) d₀) := by
    rw [findOneAndUpdate_fst, hd₀]; rfl
  unfold approve_order
  rw [if_pos hc, hfst]

/-! ## Claims C4, C7, C9 -/

/-- C4: `approve_order` accepts exactly the statuses pending, approved,
rejected case-insensitively, storing the lowercase form on the matched
order; any other status is rejected as a 400 validation error with the
state unchanged; transitions are unconditional, so approving and then
re-pending an order leaves its stored status `pending`. -/
theorem approve_order_spec :
    (∀ (st : AppState) (no s : String),
       strLower s ∈ valid_statuses →
       (∃ d ∈ st.orders, dlookup "order_no" d = some (.str no)) →
       ∃ upd, (approve_order st no s).2 = .ok upd ∧
         dlookup "status" upd = some (.str (strLower s))) ∧
    (∀ (st : AppState) (no s : String),
       strLower s ∉ valid_statuses →
       approve_order st no s =
         (st, .error (.badRequest
           "Invalid status. Must be one of: pending, approved, rejected"))) ∧
    (∀ (st : AppState) (no : String),
       (∃ d ∈ st.orders, dlookup "order_no" d = some (.str no)) →
       ((approve_order (approve_order st no "approved").1 no "pending").1.orders.find?
           (order_no_pred no)).map (dlookup "status")
         = some (some (.str "pending"))) := by
  have hfind : ∀ (st : AppState) (no : String),
      (∃ d ∈ st.orders, dlookup "order_no" d = some (.str no)) →
      ∃ d₀, st.orders.find? (order_no_pred no) = some d₀ := by
    intro st no ⟨d, hd, hno⟩
    have : (st.orders.find? (order_no_pred no)).isSome :=
      List.find?_isSome.mpr ⟨d, hd, by simp [order_no_pred, hno]⟩
    exact Option.isSome_iff_exists.mp this
  refine ⟨?_, ?_, ?_⟩
  · intro st no s hs hex
    obtain ⟨d₀, hd₀⟩ := hfind st no hex
    rw [approve_order_found st no s ((mem_valid_statuses_iff _).mpr hs) hd₀]
    exact ⟨_, rfl, dlookup_dset_self _ _ _⟩
  · intro st no s hs
    have hc : ¬ (valid_statuses.contains (strLower s) = true) :=
      fun h => hs ((mem_valid_statuses_iff _).mp h)
    unfold approve_order
    rw [if_neg hc]
  · intro st no hex
    obtain ⟨d₀, hd₀⟩ := hfind st no hex
    have hc1 : valid_statuses.contains (strLower "approved") = true := by decide
    have hc2 : valid_statuses.contains (strLower "pending") = true := by decide
    have e1 := approve_order_found st no "approved" hc1 hd₀
    have hf1 : (approve_order st no "approved").1.orders.find? (order_no_pred no) =
        some (dset "status" (.str (strLower "approved")) d₀) := by
      rw [e1]
      rw [find?_findOneAndUpdate_snd _ _ (fun d => order_no_pred_dset_status no _ d) st.orders,
        hd₀]
      rfl
    have e2 := approve_order_found (approve_order st no "approved").1 no "pending" hc2 hf1
    rw [e2]
    rw [find?_findOneAndUpdate_snd _ _ (fun d => order_no_pred_dset_status no _ d) _, hf1]
    simp [dlookup_dset_self, (by decide : strLower "pending" = "pending")]

/-- A minimal stored order document, as used by the concrete transition
scenarios below. -/
def sample_order : Doc := [("order_no", .str "o1"), ("status", .str "pending")]

/-- An application state holding one pending order and an empty activity log. -/
def sample_state : AppState := ⟨[sample_order], []⟩

/-- Closed witness for `approve_order_spec`: in the concrete one-order
state, approving then re-pending leaves the stored status `pending`. -/
theorem approve_order_spec_holds :
    ((approve_order (approve_order sample_state "o1" "approved").1 "o1" "pending").1.orders.find?
        (order_no_pred "o1")).map (dlookup "status")
      = some (some (.str "pending")) :=
  approve_order_spec.2.2 sample_state "o1" ⟨sample_order, by decide, by decide⟩

/-- C7 counterexample: a successful status transition through
`approve_order` emits no activity-log entry at all — starting from an empty
log, the log is still empty after the transition succeeds, so in particular
no `status_changed` entry exists for the order. -/
theorem approve_order_emits_no_log_cex :
    (approve_order sample_state "o1" "approved").2 =
      .ok [("order_no", .str "o1"), ("status", .str "approved")] ∧
    (approve_order sample_state "o1" "approved").1.order_logs = [] := by
  constructor
  · decide
  · decide

/-- C7 (amended): status transitions via `approve_order` write nothing to
the activity log; a `status_changed` entry appears only when the separate
`log_order_activity` operation is called with that activity type, which
then appends exactly one entry carrying the given activity type and order
number. -/
theorem status_transition_logging :
    (∀ (st : AppState) (no s : String),
       (approve_order st no s).1.order_logs = st.order_logs) ∧
    (∀ (st : AppState) (no atype : String) (desc : Option String)
       (user_email : String) (t : Int),
       ∃ e, (log_order_activity st no atype desc user_email t).1.order_logs =
              st.order_logs ++ [e] ∧
         dlookup "activity_type" e = some (.str atype) ∧
         dlookup "order_no" e = some (.str no)) := by
  constructor
  · intro st no s
    by_cases hc : valid_statuses.contains (strLower s) = true
    · unfold approve_order
      rw [if_pos hc]
      cases h : (findOneAndUpdate (order_no_pred no)
          (dset "status" (.str (strLower s))) st.orders).1 <;> simp [h]
    · unfold approve_order
      rw [if_neg hc]
  · intro st no atype desc user_email t
    exact ⟨_, rfl, rfl, rfl⟩

theorem make_order_doc_email_none (payload : MakeOrderRequest) (no : String) (t : Int) :
    dlookup "email" (make_order_doc payload no t) = none := rfl

/-- C9: every order written by `make_order` stores its owner under
`sender_email` and carries no `email` field, while `get_order_logs`
verifies ownership by matching on the field `email`; hence, over any state
whose orders all come from `make_order`, the owner's activity-log query
returns NotFound — for every order number and every authenticated owner. -/
theorem order_logs_owner_not_found :
    ∀ (st : AppState) (no owner_email : String),
      (∀ d ∈ st.orders, ∃ p n t, d = make_order_doc p n t) →
      get_order_logs st no owner_email =
        .error (.notFound "Order not found or you do not have access to it") := by
  intro st no owner hall
  have hfind : st.orders.find? (fun d =>
      dlookup "order_no" d == some (.str no) &&
      dlookup "email" d == some (.str (strLower owner))) = none := by
    rw [List.find?_eq_none]
    intro d hd
    obtain ⟨p, n, t, rfl⟩ := hall d hd
    simp [make_order_doc_email_none]
  simp [get_order_logs, hfind]

/-- A concrete `make_order` payload (owner `Owner@Example.com`). -/
def sample_payload : MakeOrderRequest :=
  ⟨"uk_ireland", "express", 1000, "A", "1", "addr", "st", "ct", "NG",
   "Owner@Example.com", "B", "2", "raddr", "rst", "rct", "PC", "UK",
   "desc", 1, 50000, 2⟩

/-- A state holding exactly the order `make_order` creates for
`sample_payload`. -/
def sample_order_state : AppState :=
  ⟨[make_order_doc sample_payload (order_no_string 1 "20260101") 0], []⟩

/-- Closed witness for `order_logs_owner_not_found`: the owner of the stored
order queries the logs of their own order and receives NotFound. -/
theorem order_logs_owner_not_found_holds :
    get_order_logs sample_order_state (order_no_string 1 "20260101") "Owner@Example.com" =
      .error (.notFound "Order not found or you do not have access to it") :=
  order_logs_owner_not_found sample_order_state (order_no_string 1 "20260101")
    "Owner@Example.com" (by
      intro d hd
      simp only [sample_order_state, List.mem_singleton] at hd
      exact ⟨sample_payload, order_no_string 1 "20260101", 0, hd⟩)

/-! ## Rate tables and price formatting (`src/models.py`, `src/utils.py`) -/

/-- `RateEntry` from `src/models.py`: tier weights are integers (pydantic
`weight: int`), prices exact numerals. -/
structure RateEntry where
  weight : Int
  price : ℚ
deriving DecidableEq, Repr

/-- `ShippingRate` from `src/models.py`: one rate card per zone. -/
structure ShippingRate where
  zone : String
  currency : String
  unit : String
  rates : List RateEntry
deriving DecidableEq, Repr

/-- `PriceResponse` from `src/models.py`: the price is a formatted string. -/
structure PriceResponse where
  zone : String
  weight : Int
  price : String
  currency : String
deriving DecidableEq, Repr

/-- Round the exact value `100 * q` to the nearest integer, ties to even —
what the CPython format spec `.2f` performs on the exact two-decimal
amounts stored in the rate tables. -/
def roundCentsHalfEven (q : ℚ) : ℤ :=
  let n : ℤ := q.num * 100
  let d : ℤ := (q.den : ℤ)
  let f : ℤ := Int.ediv n d
  let r2 : ℤ := 2 * (n - f * d)
  if r2 < d then f
  else if d < r2 then f + 1
  else if f % 2 = 0 then f else f + 1

/-- Insert a comma after every three characters of a reversed digit list. -/
def group3Rev : List Char → List Char
  | [] => []
  | [a] => [a]
  | [a, b] => [a, b]
  | a :: b :: c :: rest =>
    match rest with
    | [] => [a, b, c]
    | _ :: _ => a :: b :: c :: ',' :: group3Rev rest

/-- Decimal digits of `n` with comma thousands grouping. -/
def natGrouped (n : Nat) : String := ⟨(group3Rev (Nat.toDigits 10 n).reverse).reverse⟩

/-- Two-digit zero-padded fractional part. -/
def twoDigits (n : Nat) : String := if n < 10 then "0" ++ toString n else toString n

/-- `format_price` from `src/utils.py`: the f-string `:,.2f` — two decimal
places, comma-grouped thousands. -/
def format_price (price : ℚ) : String :=
  let cents : ℤ := roundCentsHalfEven price
  let sign : String := if cents < 0 then "-" else ""
  let a : Nat := cents.natAbs
  sign ++ natGrouped (a / 100) ++ "." ++ twoDigits (a % 100)

/-- The sort key of `sorted(rates, key=lambda x: x["weight"])`. -/
def rateLe (a b : RateEntry) : Bool := a.weight ≤ b.weight

/-- The tier-selection loop of `get_price_for_zone_weight`
(`src/routes.py` lines 305-317): sort ascending by weight, take the first
tier whose weight accommodates the request, else the last
(`sorted_rates[-1]`). -/
def select_rate (rates : List RateEntry) (weight : ℚ) : Option RateEntry :=
  let sorted_rates := rates.mergeSort rateLe
  match sorted_rates.find? (fun r => decide (weight ≤ (r.weight : ℚ))) with
  | some matched_rate => some matched_rate
  | none => sorted_rates.getLast?

/-- `get_price_for_zone_weight` endpoint (`src/routes.py` lines 264-331):
weight validated before the zone lookup, 404 on unknown zone or empty rate
list, else the matched tier with its price formatted at the boundary.  The
`none` branch of `select_rate` is unreachable here (the rate list is
non-empty); in Python it would be an IndexError surfacing as a 500. -/
def get_price_for_zone_weight (db : List ShippingRate) (zone : String) (weight : ℚ) :
    Except ApiError PriceResponse :=
  if weight ≤ 0 then .error (.badRequest "Weight must be greater than 0")
  else
    match db.find? (fun d => d.zone == strUpper zone) with
    | none => .error (.notFound ("Zone " ++ zone ++ " not found"))
    | some zone_doc =>
      if zone_doc.rates.isEmpty then
        .error (.notFound ("No rates defined for zone " ++ zone))
      else
        match select_rate zone_doc.rates weight with
        | some matched_rate =>
          .ok ⟨strUpper zone, matched_rate.weight, format_price matched_rate.price,
            zone_doc.currency⟩
        | none => .error (.serverError "Error fetching price")

/-- `add_rates` endpoint (`src/routes.py` lines 181-261): normalize the zone
to uppercase; when the zone exists, `update_one` with `$set` of the whole
payload — and when that modifies nothing (`modified_count == 0`, i.e. the
stored document already equals the payload) the endpoint raises
400 `Failed to update rates`; otherwise the updated (resp. newly inserted)
stored document is returned (its display-price formatting at the HTTP
boundary is `format_price`, covered separately). -/
def add_rates (db : List ShippingRate) (rate0 : ShippingRate) :
    List ShippingRate × Except ApiError ShippingRate :=
  let rate : ShippingRate := { rate0 with zone := strUpper rate0.zone }
  match db.find? (fun d => d.zone == rate.zone) with
  | some existing =>
    if existing == rate then
      (db, .error (.badRequest "Failed to update rates"))
    else
      let db2 := updateFirst (fun d => d.zone == rate.zone) (fun _ => rate) db
      match db2.find? (fun d => d.zone == rate.zone) with
      | some updated => (db2, .ok updated)
      | none => (db2, .error (.serverError "Error adding rates"))
  | none => (db ++ [rate], .ok rate)

/-- The `UK_IRELAND` tier list of the end-to-end example:
`[(2, 85378.48), (3, 102410.07), (4, 126375.73)]`, amounts as exact
rationals in hundredths. -/
def uk_rates : List RateEntry :=
  [⟨2, mkRat 8537848 100⟩, ⟨3, mkRat 10241007 100⟩, ⟨4, mkRat 12637573 100⟩]

/-- The stored `UK_IRELAND` rate card of the end-to-end example. -/
def uk_doc : ShippingRate := ⟨"UK_IRELAND", "NGN", "kg", uk_rates⟩

/-! ## Pricing lemmas -/

theorem rateLe_trans : ∀ a b c : RateEntry,
    rateLe a b = true → rateLe b c = true → rateLe a c = true := by
  intro a b c hab hbc
  simp only [rateLe, decide_eq_true_eq] at *
  omega

theorem rateLe_total : ∀ a b : RateEntry, (rateLe a b || rateLe b a) = true := by
  intro a b
  simp only [rateLe, Bool.or_eq_true, decide_eq_true_eq]
  omega

/-- In a weight-sorted list, the first tier accommodating `w` has minimal
weight among all accommodating tiers. -/
theorem find?_min_sorted (w : ℚ) :
    ∀ l : List RateEntry, l.Pairwise (fun a b => rateLe a b = true) →
      ∀ r, l.find? (fun r => decide (w ≤ (r.weight : ℚ))) = some r →
      ∀ t ∈ l, w ≤ (t.weight : ℚ) → r.weight ≤ t.weight := by
  intro l
  induction l with
  | nil => intro _ r hr; simp at hr
  | cons a rest ih =>
    intro hp r hr t ht hw
    rw [List.pairwise_cons] at hp
    by_cases ha : w ≤ ((a.weight : ℚ))
    · have hfa : (a :: rest).find? (fun r => decide (w ≤ (r.weight : ℚ))) = some a := by
        simp [List.find?, ha]
      rw [hfa] at hr
      injection hr with hr
      subst hr
      rcases List.mem_cons.mp ht with rfl | ht
      · exact le_refl _
      · simpa [rateLe] using hp.1 t ht
    · have hfa : (a :: rest).find? (fun r => decide (w ≤ (r.weight : ℚ))) =
          rest.find? (fun r => decide (w ≤ (r.weight : ℚ))) := by
        simp [List.find?, ha]
      rw [hfa] at hr
      rcases List.mem_cons.mp ht with rfl | ht
      · exact absurd hw ha
      · exact ih hp.2 r hr t ht hw

/-- In a weight-sorted list, the last tier has maximal weight. -/
theorem getLast_max_sorted :
    ∀ l : List RateEntry, l.Pairwise (fun a b => rateLe a b = true) →
      ∀ r, l.getLast? = some r → ∀ t ∈ l, t.weight ≤ r.weight := by
  intro l hp r hr t ht
  obtain ⟨ys, rfl⟩ := List.getLast?_eq_some_iff.mp hr
  rw [List.pairwise_append] at hp
  rcases List.mem_append.mp ht with h | h
  · simpa [rateLe] using hp.2.2 t h r (List.mem_singleton_self r)
  · rw [List.mem_singleton.mp h]

/-- The tier-selection loop always yields a tier of the (non-empty) input,
the first one accommodating the weight — minimal among those — or, when no
tier accommodates it, the heaviest tier. -/
theorem select_rate_spec (rates : List RateEntry) (w : ℚ) (hne : rates ≠ []) :
    ∃ r, select_rate rates w = some r ∧ r ∈ rates ∧
      ((∃ t ∈ rates, w ≤ (t.weight : ℚ)) →
        w ≤ (r.weight : ℚ) ∧ ∀ t ∈ rates, w ≤ (t.weight : ℚ) → r.weight ≤ t.weight) ∧
      ((∀ t ∈ rates, (t.weight : ℚ) < w) → ∀ t ∈ rates, t.weight ≤ r.weight) := by
  have hsorted := List.sorted_mergeSort rateLe_trans rateLe_total rates
  have hperm := List.mergeSort_perm rates rateLe
  simp only [select_rate]
  cases hfr : (rates.mergeSort rateLe).find? (fun r => decide (w ≤ (r.weight : ℚ))) with
  | some r =>
    have hrw : w ≤ (r.weight : ℚ) := by simpa using List.find?_some hfr
    refine ⟨r, rfl, hperm.mem_iff.mp (List.mem_of_find?_eq_some hfr), ?_, ?_⟩
    · intro _
      exact ⟨hrw, fun t ht hwt =>
        find?_min_sorted w _ hsorted r hfr t (hperm.mem_iff.mpr ht) hwt⟩
    · intro hall t ht
      have h1 : (t.weight : ℚ) ≤ (r.weight : ℚ) := le_of_lt (lt_of_lt_of_le (hall t ht) hrw)
      exact_mod_cast h1
  | none =>
    have hSne : rates.mergeSort rateLe ≠ [] := by
      intro hnil
      have hp2 : rates.Perm [] := hnil ▸ hperm.symm
      exact hne hp2.eq_nil
    obtain ⟨r, hr⟩ := Option.isSome_iff_exists.mp (List.getLast?_isSome.mpr hSne)
    rw [hr]
    have hrmem : r ∈ rates.mergeSort rateLe := by
      obtain ⟨ys, hys⟩ := List.getLast?_eq_some_iff.mp hr
      rw [hys]
      exact List.mem_append_right ys (List.mem_singleton_self r)
    refine ⟨r, rfl, hperm.mem_iff.mp hrmem, ?_, ?_⟩
    · rintro ⟨t, ht, hwt⟩
      exact absurd hwt
        (by simpa using List.find?_eq_none.mp hfr t (hperm.mem_iff.mpr ht))
    · intro _ t ht
      exact getLast_max_sorted _ hsorted r hr t (hperm.mem_iff.mpr ht)

unseal List.merge List.mergeSort in
theorem uk_price_lookup_eval :
    get_price_for_zone_weight [uk_doc] "UK_IRELAND" (mkRat 7 2) =
      .ok ⟨"UK_IRELAND", 4, "126,375.73", "NGN"⟩ := by decide

/-! ## Claims C1, C6, C5 -/

/-- C1: for every zone whose rate table is non-empty and every requested
weight `w > 0`, the price lookup answers with a stored tier — the one with
the smallest weight `≥ w`, or the one with the largest weight when every
tier is lighter than `w` — with the price formatted at the boundary; in
particular for `UK_IRELAND` with tiers
`[(2, 85378.48), (3, 102410.07), (4, 126375.73)]` and `w = 3.5` the lookup
returns the weight-4 tier priced `"126,375.73"`. -/
theorem price_lookup_tier_selection :
    (∀ (db : List ShippingRate) (zone : String) (w : ℚ) (doc : ShippingRate),
       0 < w →
       db.find? (fun d => d.zone == strUpper zone) = some doc →
       doc.rates ≠ [] →
       ∃ r ∈ doc.rates,
         get_price_for_zone_weight db zone w =
           .ok ⟨strUpper zone, r.weight, format_price r.price, doc.currency⟩ ∧
         ((∃ t ∈ doc.rates, w ≤ (t.weight : ℚ)) →
            w ≤ (r.weight : ℚ) ∧
            ∀ t ∈ doc.rates, w ≤ (t.weight : ℚ) → r.weight ≤ t.weight) ∧
         ((∀ t ∈ doc.rates, (t.weight : ℚ) < w) →
            ∀ t ∈ doc.rates, t.weight ≤ r.weight)) ∧
    uk_doc.rates = [⟨2, mkRat 8537848 100⟩, ⟨3, mkRat 10241007 100⟩,
      ⟨4, mkRat 12637573 100⟩] ∧
    mkRat 8537848 100 = 85378.48 ∧ mkRat 10241007 100 = 102410.07 ∧
    mkRat 12637573 100 = 126375.73 ∧ mkRat 7 2 = 3.5 ∧
    get_price_for_zone_weight [uk_doc] "UK_IRELAND" (mkRat 7 2) =
      .ok ⟨"UK_IRELAND", 4, "126,375.73", "NGN"⟩ := by
  refine ⟨?_, rfl, ?_, ?_, ?_, ?_, uk_price_lookup_eval⟩
  · intro db zone w doc hw hfdb hne
    obtain ⟨r, hsel, hmem, h1, h2⟩ := select_rate_spec doc.rates w hne
    refine ⟨r, hmem, ?_, h1, h2⟩
    have hemp : ¬ (doc.rates.isEmpty = true) := by simpa using hne
    simp only [get_price_for_zone_weight, hfdb, hsel]
    rw [if_neg (not_le.mpr hw), if_neg hemp]
  · norm_num [Rat.mkRat_eq_div]
  · norm_num [Rat.mkRat_eq_div]
  · norm_num [Rat.mkRat_eq_div]
  · norm_num [Rat.mkRat_eq_div]

/-- Closed witness for `price_lookup_tier_selection` at the end-to-end
example inputs. -/
theorem price_lookup_tier_selection_holds :
    ∃ r ∈ uk_doc.rates,
      get_price_for_zone_weight [uk_doc] "UK_IRELAND" (mkRat 7 2) =
        .ok ⟨strUpper "UK_IRELAND", r.weight, format_price r.price, uk_doc.currency⟩ ∧
      ((∃ t ∈ uk_doc.rates, (mkRat 7 2 : ℚ) ≤ (t.weight : ℚ)) →
         (mkRat 7 2 : ℚ) ≤ (r.weight : ℚ) ∧
         ∀ t ∈ uk_doc.rates, (mkRat 7 2 : ℚ) ≤ (t.weight : ℚ) → r.weight ≤ t.weight) ∧
      ((∀ t ∈ uk_doc.rates, (t.weight : ℚ) < (mkRat 7 2 : ℚ)) →
         ∀ t ∈ uk_doc.rates, t.weight ≤ r.weight) :=
  price_lookup_tier_selection.1 [uk_doc] "UK_IRELAND" (mkRat 7 2) uk_doc
    (by decide) (by decide) (by decide)

/-- C6: the price lookup rejects `w ≤ 0` as a 400 validation error before
any zone lookup (for every database, unknown zones included); an unknown
zone, and a known zone with zero tiers, each give a 404. -/
theorem price_lookup_errors :
    (∀ (db : List ShippingRate) (zone : String) (w : ℚ), w ≤ 0 →
       get_price_for_zone_weight db zone w =
         .error (.badRequest "Weight must be greater than 0")) ∧
    (∀ (db : List ShippingRate) (zone : String) (w : ℚ), 0 < w →
       db.find? (fun d => d.zone == strUpper zone) = none →
       get_price_for_zone_weight db zone w =
         .error (.notFound ("Zone " ++ zone ++ " not found"))) ∧
    (∀ (db : List ShippingRate) (zone : String) (w : ℚ) (doc : ShippingRate), 0 < w →
       db.find? (fun d => d.zone == strUpper zone) = some doc →
       doc.rates = [] →
       get_price_for_zone_weight db zone w =
         .error (.notFound ("No rates defined for zone " ++ zone))) := by
  refine ⟨?_, ?_, ?_⟩
  · intro db zone w hw
    unfold get_price_for_zone_weight
    rw [if_pos hw]
  · intro db zone w hw hfdb
    simp only [get_price_for_zone_weight, hfdb]
    rw [if_neg (not_le.mpr hw)]
  · intro db zone w doc hw hfdb hnil
    simp only [get_price_for_zone_weight, hfdb]
    rw [if_neg (not_le.mpr hw), if_pos (by simp [hnil] : doc.rates.isEmpty = true)]

/-- Closed witness for `price_lookup_errors`: zero weight beats the zone
lookup even on an empty database, and an unknown zone is a 404. -/
theorem price_lookup_errors_holds :
    get_price_for_zone_weight [] "NOWHERE" 0 =
      .error (.badRequest "Weight must be greater than 0") ∧
    get_price_for_zone_weight [] "NOWHERE" 1 =
      .error (.notFound ("Zone " ++ "NOWHERE" ++ " not found")) :=
  ⟨price_lookup_errors.1 [] "NOWHERE" 0 (by norm_num),
   price_lookup_errors.2.1 [] "NOWHERE" 1 (by norm_num) rfl⟩

theorem find?_append_of_none {α : Type} (p : α → Bool) (l1 l2 : List α)
    (h : l1.find? p = none) : (l1 ++ l2).find? p = l2.find? p := by
  induction l1 with
  | nil => rfl
  | cons a rest ih =>
    have hall := List.find?_eq_none.mp h
    rw [List.cons_append,
      List.find?_cons_of_neg _ (by simpa using hall a (List.mem_cons_self a rest))]
    exact ih (List.find?_eq_none.mpr fun x hx => hall x (List.mem_cons_of_mem a hx))

theorem find?_updateFirst_const {α : Type} (p : α → Bool) (c : α) (hc : p c = true)
    (l : List α) (h : (l.find? p).isSome) :
    (updateFirst p (fun _ => c) l).find? p = some c := by
  induction l with
  | nil => simp at h
  | cons a rest ih =>
    by_cases ha : p a
    · simp [updateFirst, ha, List.find?_cons_of_pos _ hc]
    · have h2 : (rest.find? p).isSome := by
        rwa [List.find?_cons_of_neg _ ha] at h
      simp [updateFirst, ha, List.find?_cons_of_neg _ ha, ih h2]

/-- Every successful `add_rates` stores exactly the normalized payload as
the zone's document and returns it. -/
theorem add_rates_ok (db db1 : List ShippingRate) (rate r1 : ShippingRate)
    (h : add_rates db rate = (db1, .ok r1)) :
    r1 = { rate with zone := strUpper rate.zone } ∧
    db1.find? (fun d => d.zone == strUpper rate.zone) = some r1 := by
  simp only [add_rates] at h
  split at h
  next existing hf =>
    split at h
    next he =>
      simp only [Prod.mk.injEq] at h
      exact absurd h.2 (by simp)
    next he =>
      have hsome : ((updateFirst (fun d => d.zone == strUpper rate.zone)
          (fun _ => ({ rate with zone := strUpper rate.zone } : ShippingRate)) db).find?
          (fun d => d.zone == strUpper rate.zone)) =
          some ({ rate with zone := strUpper rate.zone } : ShippingRate) := by
        apply find?_updateFirst_const
        · simp
        · rw [hf]; rfl
      split at h
      next updated hup =>
        rw [hup] at hsome
        injection hsome with hsome
        simp only [Prod.mk.injEq, Except.ok.injEq] at h
        obtain ⟨h1, h2⟩ := h
        subst h1
        refine ⟨by rw [← h2, hsome], ?_⟩
        rw [hup, h2]
      next hup =>
        simp only [Prod.mk.injEq] at h
        exact absurd h.2 (by simp)
  next hf =>
    simp only [Prod.mk.injEq, Except.ok.injEq] at h
    obtain ⟨h1, h2⟩ := h
    subst h1
    refine ⟨h2.symm, ?_⟩
    rw [find?_append_of_none _ _ _ hf, List.find?_cons_of_pos _ (by simp), h2]

/-- C5 counterexample: upserting the identical rate card twice does not
succeed the second time — the `modified_count == 0` guard of `add_rates`
turns the no-op update into a 400 `Failed to update rates`, though the
stored state is untouched. -/
theorem add_rates_second_upsert_rejected_cex :
    add_rates (add_rates [] uk_doc).1 uk_doc =
      ((add_rates [] uk_doc).1, .error (.badRequest "Failed to update rates")) := by
  decide

/-- C5 (amended): re-applying the upsert with an identical payload leaves
the stored documents identical but reports a 400 `Failed to update rates`
instead of succeeding; every successful upsert stores exactly the
normalized payload for the zone — fully replacing prior tiers, currency
and unit with no residue. -/
theorem add_rates_upsert_spec :
    (∀ (db db1 : List ShippingRate) (rate r1 : ShippingRate),
       add_rates db rate = (db1, .ok r1) →
       add_rates db1 rate = (db1, .error (.badRequest "Failed to update rates"))) ∧
    (∀ (db db1 : List ShippingRate) (rate r1 : ShippingRate),
       add_rates db rate = (db1, .ok r1) →
       r1 = { rate with zone := strUpper rate.zone } ∧
       db1.find? (fun d => d.zone == strUpper rate.zone) = some r1) := by
  refine ⟨?_, fun db db1 rate r1 h => add_rates_ok db db1 rate r1 h⟩
  intro db db1 rate r1 h
  obtain ⟨hr1, hfind⟩ := add_rates_ok db db1 rate r1 h
  subst hr1
  simp only [add_rates, hfind]
  simp

/-- Closed witness for `add_rates_upsert_spec`: a fresh upsert of the
`UK_IRELAND` card stores exactly that card. -/
theorem add_rates_upsert_spec_holds :
    uk_doc = { uk_doc with zone := strUpper uk_doc.zone } ∧
    [uk_doc].find? (fun d => d.zone == strUpper uk_doc.zone) = some uk_doc :=
  add_rates_upsert_spec.2 [] [uk_doc] uk_doc uk_doc (by decide)

end Transdom
